import Mathlib

/-!
Verification development for the GUN4FUN trivia bot (`bot.py`, `server.py`).

The bot keeps five SQLite tables — `users`, `events`, `answers`, `streaks`,
`badges` — and manipulates them through a handful of handlers: `touch_user`,
`answer_cb`, `close_event_job`, `period_bounds`, `fetch_rank`,
`award_daily_badges`, `load_questions`.  Each table is embedded as a list of
row structures, and each handler as a pure function on a `DB` state, with
clock reads (`now_ts`) and the submitting user's identity passed explicitly
as arguments.  SQL statements are embedded by their semantics on these lists:
`SELECT ... fetchone` is `List.find?`, an `INSERT ... ON CONFLICT DO UPDATE`
is an in-place map over the matching key, `INSERT` under a primary key is an
append guarded by a key-presence check whose failure is the
`sqlite3.IntegrityError` path, and the implicit transaction of a
`with db() as c:` block commits statements that ran before a caught
`IntegrityError` (Python's sqlite3 connection context manager commits on a
non-exceptional exit, and the error is caught inside the block).
-/

namespace Gun4Fun

/-- A row of the `users` table: per-(chat,user) profile, primary key
`(chat_id, user_id)`. -/
structure UserRow where
  chat_id : Int
  user_id : Int
  name : String
  last_seen_ts : Int
  deriving Repr, DecidableEq

/-- A row of the `events` table: one posted question instance. -/
structure EventRow where
  id : Int
  chat_id : Int
  question : String
  choices : String
  answer : String
  start_ts : Int
  end_ts : Int
  deriving Repr, DecidableEq

/-- A row of the `answers` table, primary key `(event_id, user_id)`.
`correct` is the INTEGER column holding `1 if choice == ev["answer"] else 0`. -/
structure AnswerRow where
  event_id : Int
  user_id : Int
  choice : String
  correct : Int
  ts : Int
  deriving Repr, DecidableEq

/-- A row of the `streaks` table, primary key `(chat_id, user_id)`. -/
structure StreakRow where
  chat_id : Int
  user_id : Int
  streak : Int
  best_streak : Int
  deriving Repr, DecidableEq

/-- A row of the `badges` table, primary key
`(chat_id, user_id, code, period_key)`. -/
structure BadgeRow where
  chat_id : Int
  user_id : Int
  code : String
  name : String
  ts : Int
  period : String
  period_key : String
  deriving Repr, DecidableEq

/-- The five persisted collections created by `ensure_db`. -/
structure DB where
  users : List UserRow
  events : List EventRow
  answers : List AnswerRow
  streaks : List StreakRow
  badges : List BadgeRow
  deriving Repr, DecidableEq

/-- Primary-key match for `users`. -/
def userKey (chat uid : Int) (r : UserRow) : Bool :=
  r.chat_id == chat && r.user_id == uid

/-- Primary-key match for `streaks`. -/
def streakKey (chat uid : Int) (r : StreakRow) : Bool :=
  r.chat_id == chat && r.user_id == uid

/-- Primary-key match for `answers`. -/
def answerKey (eid uid : Int) (a : AnswerRow) : Bool :=
  a.event_id == eid && a.user_id == uid

/-- Primary-key match for `badges`. -/
def badgeKey (chat uid : Int) (code pkey : String) (b : BadgeRow) : Bool :=
  b.chat_id == chat && b.user_id == uid && b.code == code && b.period_key == pkey

/-- `INSERT INTO users ... ON CONFLICT(chat_id,user_id) DO UPDATE SET
name=excluded.name, last_seen_ts=excluded.last_seen_ts`. -/
def upsertUser (l : List UserRow) (chat uid : Int) (uname : String) (ts : Int) :
    List UserRow :=
  if l.any (userKey chat uid) then
    l.map fun r =>
      if userKey chat uid r then { r with name := uname, last_seen_ts := ts } else r
  else
    l ++ [⟨chat, uid, uname, ts⟩]

/-- `INSERT INTO streaks(chat_id,user_id,streak,best_streak) VALUES(?,?,0,0)
ON CONFLICT(chat_id,user_id) DO NOTHING`. -/
def ensureStreak (l : List StreakRow) (chat uid : Int) : List StreakRow :=
  if l.any (streakKey chat uid) then l else l ++ [⟨chat, uid, 0, 0⟩]

/-- The lightweight acknowledgments `answer_cb` sends via `q.answer(...)`. -/
inductive Ack where
  | eventNotFound
  | timesUp
  | correctAck
  | incorrectAck
  | alreadyAnswered
  deriving Repr, DecidableEq

/-- `answer_cb` (bot.py:266-309), after the callback payload has been parsed
into `event_id` and `choice`; `uid`/`uname` are the pressing user and `now`
is the `now_ts()` read.  Looks up the event, rejects when missing or past
`end_ts`, upserts the user profile, ensures a streak row, then attempts the
answer insert with `correct = 1 if choice == ev["answer"] else 0`; a
primary-key conflict raises `IntegrityError`, which is caught and answered
with "Ya respondiste esta pregunta" — the user/streak statements still
commit when the `with` block exits. -/
def answer_cb (st : DB) (event_id : Int) (choice : String) (uid : Int)
    (uname : String) (now : Int) : DB × Ack :=
  match st.events.find? (fun e => e.id == event_id) with
  | none => (st, Ack.eventNotFound)
  | some ev =>
    if now > ev.end_ts then (st, Ack.timesUp)
    else
      let users1 := upsertUser st.users ev.chat_id uid uname now
      let streaks1 := ensureStreak st.streaks ev.chat_id uid
      let st1 : DB := { st with users := users1, streaks := streaks1 }
      if st.answers.any (answerKey event_id uid) then
        (st1, Ack.alreadyAnswered)
      else
        let row : AnswerRow :=
          ⟨event_id, uid, choice, if choice == ev.answer then 1 else 0, now⟩
        ({ st1 with answers := st.answers ++ [row] },
         if choice == ev.answer then Ack.correctAck else Ack.incorrectAck)

/-- `touch_user` (bot.py:152-171) for a message in a group chat: upsert the
profile and ensure a zero streak row. -/
def touch_user (st : DB) (chat uid : Int) (uname : String) (now : Int) : DB :=
  { st with
    users := upsertUser st.users chat uid uname now
    streaks := ensureStreak st.streaks chat uid }

/-- One iteration of the `for r in ans:` streak loop of `close_event_job`
(bot.py:233-241): read the streak row, insert a zero row when missing,
compute `streak = row.streak + 1 if ok else 0`, `best = max(row.best_streak,
streak)`, and run the keyed UPDATE. -/
def streakUpdateOne (l : List StreakRow) (chat uid : Int) (correct : Int) :
    List StreakRow :=
  let ok : Bool := correct == 1
  match l.find? (streakKey chat uid) with
  | some row =>
    let streak := if ok then row.streak + 1 else 0
    let best := max row.best_streak streak
    l.map fun r =>
      if streakKey chat uid r then { r with streak := streak, best_streak := best }
      else r
  | none =>
    let streak := if ok then (0 : Int) + 1 else 0
    let best := max (0 : Int) streak
    (l ++ [(⟨chat, uid, 0, 0⟩ : StreakRow)]).map fun r =>
      if streakKey chat uid r then { r with streak := streak, best_streak := best }
      else r

/-- The database effect of `close_event_job` (bot.py:216-242): load the
event, load its answers, and run the streak update for each answering user.
The roster query and the summary message read state but change nothing. -/
def close_event_job (st : DB) (event_id : Int) : DB :=
  match st.events.find? (fun e => e.id == event_id) with
  | none => st
  | some ev =>
    let ans := st.answers.filter (fun a => a.event_id == event_id)
    { st with
      streaks := ans.foldl
        (fun l a => streakUpdateOne l ev.chat_id a.user_id a.correct) st.streaks }

/-- One aggregated row of `fetch_rank`'s GROUP BY query: user id, display
name from the LEFT JOIN (NULL when no profile row), and the two CASE sums. -/
structure RankRow where
  user_id : Int
  name : Option String
  aciertos : Int
  fallos : Int
  deriving Repr, DecidableEq

/-- `GROUP BY a.user_id`: the distinct user ids of an answer list, in order
of first appearance. -/
def groupUserIds (ans : List AnswerRow) : List Int :=
  ans.foldl (fun acc a => if acc.contains a.user_id then acc else acc ++ [a.user_id]) []

/-- `SUM(CASE WHEN a.correct=1 THEN 1 ELSE 0 END)` for one user. -/
def hitsOf (ans : List AnswerRow) (uid : Int) : Int :=
  ((ans.filter fun a => a.user_id == uid && a.correct == 1).length : Int)

/-- `SUM(CASE WHEN a.correct=0 THEN 1 ELSE 0 END)` for one user. -/
def faultsOf (ans : List AnswerRow) (uid : Int) : Int :=
  ((ans.filter fun a => a.user_id == uid && a.correct == 0).length : Int)

/-- `ORDER BY aciertos DESC, fallos ASC` as a Boolean total preorder. -/
def rankLE (r1 r2 : RankRow) : Bool :=
  r2.aciertos < r1.aciertos || (r1.aciertos == r2.aciertos && r1.fallos ≤ r2.fallos)

/-- `SELECT id FROM events WHERE chat_id=? AND start_ts>=? AND start_ts<?`. -/
def periodEvents (st : DB) (chat_id t0 t1 : Int) : List EventRow :=
  st.events.filter fun e =>
    e.chat_id == chat_id && t0 ≤ e.start_ts && e.start_ts < t1

/-- The answers with `event_id IN` the period's event ids. -/
def periodAnswers (st : DB) (chat_id t0 t1 : Int) : List AnswerRow :=
  st.answers.filter fun a =>
    ((periodEvents st chat_id t0 t1).map (·.id)).contains a.event_id

/-- `SELECT user_id, name FROM users WHERE chat_id=? AND last_seen_ts>=?`
with the 30-day cutoff `now_ts() - 30*24*3600`. -/
def recentRoster (st : DB) (chat_id now : Int) : List UserRow :=
  st.users.filter fun u =>
    u.chat_id == chat_id && now - 30 * 24 * 3600 ≤ u.last_seen_ts

/-- `fetch_rank` (bot.py:327-358) with the `period_bounds` output `(t0, t1)`
and the `now_ts()` read passed in.  Returns `(rows, roster, not_ans)`:
the aggregated rows sorted by the ORDER BY key, the 30-day roster, and the
roster members without an answer among the period's events.  When the chat
has no event starting in `[t0, t1)` it returns three empty lists. -/
def fetch_rank (st : DB) (chat_id : Int) (t0 t1 now : Int) :
    List RankRow × List UserRow × List UserRow :=
  let evs := periodEvents st chat_id t0 t1
  if evs.isEmpty then ([], [], [])
  else
    let rel := periodAnswers st chat_id t0 t1
    let rows := (groupUserIds rel).map fun uid =>
      { user_id := uid
        name := (st.users.find? (userKey chat_id uid)).map (·.name)
        aciertos := hitsOf rel uid
        fallos := faultsOf rel uid : RankRow }
    let rows := rows.mergeSort rankLE
    let roster := recentRoster st chat_id now
    let answered := groupUserIds rel
    let notAns := roster.filter fun u => !answered.contains u.user_id
    (rows, roster, notAns)

/-- One entry of the module-level `BADGES` list (bot.py:55-61). -/
structure BadgeSpec where
  code : String
  name : String
  desc : String
  type : String
  deriving Repr, DecidableEq

/-- The `BADGES` constant. -/
def BADGES : List BadgeSpec :=
  [⟨"BRONCE_DIA", "Medalla de Bronce (Día)", "≥ 3 aciertos hoy", "dia"⟩,
   ⟨"PLATA_DIA", "Medalla de Plata (Día)", "≥ 5 aciertos hoy", "dia"⟩,
   ⟨"ORO_DIA", "Medalla de Oro (Día)", "≥ 6 aciertos hoy", "dia"⟩,
   ⟨"RACHA_3", "Racha x3", "3 aciertos seguidos", "streak"⟩,
   ⟨"RACHA_5", "Racha x5", "5 aciertos seguidos", "streak"⟩]

/-- `next(b for b in BADGES if b["code"]==code)`; total via a default that
is never reached for the five codes actually used. -/
def findBadge (code : String) : BadgeSpec :=
  (BADGES.find? (fun b => b.code == code)).getD ⟨code, code, "", ""⟩

/-- The `awarded` accumulator of `award_daily_badges`: a Python dict
`uid -> list of badge dicts` in insertion order. -/
abbrev AwardMap := List (Int × List BadgeSpec)

/-- `awarded.setdefault(uid, []).append(bd)`. -/
def addAward (m : AwardMap) (uid : Int) (bd : BadgeSpec) : AwardMap :=
  if m.any (fun p => p.1 == uid) then
    m.map fun p => if p.1 == uid then (p.1, p.2 ++ [bd]) else p
  else
    m ++ [(uid, [bd])]

/-- One guarded badge INSERT of `award_daily_badges` (bot.py:388-395 and
403-410): on a `(chat_id,user_id,code,period_key)` conflict the
`IntegrityError` is swallowed and the award map is left alone; otherwise the
row is inserted and the badge recorded in the map. -/
def tryInsertBadge (chat uid now : Int) (bd : BadgeSpec) (pkey : String)
    (acc : List BadgeRow × AwardMap) : List BadgeRow × AwardMap :=
  if acc.1.any (badgeKey chat uid bd.code pkey) then acc
  else (acc.1 ++ [⟨chat, uid, bd.code, bd.name, now, "dia", pkey⟩],
        addAward acc.2 uid bd)

/-- The inner `for code, th in [...]` loop body of `award_daily_badges`:
attempt each tier whose threshold the value reaches. -/
def awardTiers (chat now : Int) (pkey : String) (tiers : List (String × Int))
    (uid v : Int) (acc : List BadgeRow × AwardMap) : List BadgeRow × AwardMap :=
  tiers.foldl
    (fun acc ct => if v ≥ ct.2 then tryInsertBadge chat uid now (findBadge ct.1) pkey acc
                   else acc) acc

/-- The day-tier threshold list `[("BRONCE_DIA",3),("PLATA_DIA",5),("ORO_DIA",6)]`. -/
def dayTiers : List (String × Int) := [("BRONCE_DIA", 3), ("PLATA_DIA", 5), ("ORO_DIA", 6)]

/-- The streak-tier threshold list `[("RACHA_3",3),("RACHA_5",5)]`. -/
def streakTiers : List (String × Int) := [("RACHA_3", 3), ("RACHA_5", 5)]

/-- The answer rows of `award_daily_badges`'s aggregate query: answers whose
LEFT JOIN to `events` matches an event of this chat starting in `[t0, t1)`
(the WHERE clause on the joined event makes the join inner). -/
def dayAnswers (st : DB) (chat t0 t1 : Int) : List AnswerRow :=
  st.answers.filter fun a =>
    st.events.any fun e =>
      e.id == a.event_id && e.chat_id == chat && t0 ≤ e.start_ts && e.start_ts < t1

/-- The `rows` of `award_daily_badges`'s aggregate query, reduced to the two
columns the loop reads: `(user_id, aciertos)` per user of the day's answers. -/
def dayRows (st : DB) (chat t0 t1 : Int) : List (Int × Int) :=
  (groupUserIds (dayAnswers st chat t0 t1)).map fun uid =>
    (uid, hitsOf (dayAnswers st chat t0 t1) uid)

/-- The `streak_rows` query of `award_daily_badges`, reduced to the two
columns the loop reads: `(user_id, streak)` per streak row of the chat. -/
def chatStreakRows (st : DB) (chat : Int) : List (Int × Int) :=
  (st.streaks.filter fun r => r.chat_id == chat).map fun r => (r.user_id, r.streak)

/-- One of the two `for`-loops of `award_daily_badges`: run the tier
attempts for each `(user_id, value)` row in order. -/
def awardPass (chat now : Int) (pkey : String) (tiers : List (String × Int))
    (pairs : List (Int × Int)) (acc : List BadgeRow × AwardMap) :
    List BadgeRow × AwardMap :=
  pairs.foldl (fun acc p => awardTiers chat now pkey tiers p.1 p.2 acc) acc

/-- The badge-table and award-map outcome of `award_daily_badges`: the day
pass over the per-user hit rows followed by the streak pass over the chat's
streak rows, starting from the current badge table and an empty map. -/
def awardBadgesResult (st : DB) (chat t0 t1 now : Int) (todayKey : String) :
    List BadgeRow × AwardMap :=
  awardPass chat now todayKey streakTiers (chatStreakRows st chat)
    (awardPass chat now todayKey dayTiers (dayRows st chat t0 t1)
      (st.badges, ([] : AwardMap)))

/-- `award_daily_badges` (bot.py:368-412) with the period bounds, day key and
`now_ts()` read passed in.  First pass: per-user hits over the day's events
against the day tiers; second pass: every streak row of the chat against the
streak tiers; each insert is guarded by the unique
`(chat_id,user_id,code,period_key)` key.  Returns the new state and the map
of newly awarded badges. -/
def award_daily_badges (st : DB) (chat t0 t1 now : Int) (todayKey : String) :
    DB × AwardMap :=
  ({ st with badges := (awardBadgesResult st chat t0 t1 now todayKey).1 },
   (awardBadgesResult st chat t0 t1 now todayKey).2)

/-- One record of the external question JSON, with possibly missing fields:
`"q" in q` etc. are key-presence tests on the parsed dict. -/
structure RawQuestion where
  q : Option String
  choices : Option (List String)
  answer : Option String
  deriving Repr, DecidableEq

/-- The filter of `load_questions` (bot.py:67): all three keys present and
`q["answer"] in q["choices"]`. -/
def validQuestion (r : RawQuestion) : Bool :=
  r.q.isSome && r.choices.isSome && r.answer.isSome &&
    match r.answer, r.choices with
    | some a, some cs => cs.contains a
    | _, _ => false

/-- `load_questions` (bot.py:64-70) applied to the parsed JSON list: keep the
valid entries, raise `RuntimeError` when none remain. -/
def load_questions (data : List RawQuestion) : Except String (List RawQuestion) :=
  let cleaned := data.filter validQuestion
  if cleaned.isEmpty then Except.error "No se cargaron preguntas válidas del JSON."
  else Except.ok cleaned

/-- A local wall-clock datetime as `datetime.now(TZ)` produces it.
`period_bounds` only manipulates these civil-calendar fields; the final
`int(....timestamp())` conversion is the external pytz/OS epoch conversion
and is outside the embedding — the claims below are about the boundaries in
the configured local time zone. -/
structure PyDateTime where
  year : Int
  month : Int
  day : Int
  hour : Int
  minute : Int
  second : Int
  microsecond : Int
  deriving Repr, DecidableEq

/-- Gregorian leap-year rule, as Python's `calendar`/`datetime` use it. -/
def isLeap (y : Int) : Bool :=
  y % 4 == 0 && (y % 100 != 0 || y % 400 == 0)

/-- Length of a month in the proleptic Gregorian calendar. -/
def daysInMonth (y m : Int) : Int :=
  if m == 2 then (if isLeap y then 29 else 28)
  else if m == 4 || m == 6 || m == 9 || m == 11 then 30
  else 31

/-- Days before month `m` in year `y` (0 for January). -/
def daysBeforeMonth (y m : Int) : Int :=
  (if m == 1 then 0
   else if m == 2 then 31
   else if m == 3 then 59
   else if m == 4 then 90
   else if m == 5 then 120
   else if m == 6 then 151
   else if m == 7 then 181
   else if m == 8 then 212
   else if m == 9 then 243
   else if m == 10 then 273
   else if m == 11 then 304
   else 334) + (if 2 < m && isLeap y then 1 else 0)

/-- Python's `date.toordinal()`: day number with 0001-01-01 ↦ 1, extended
over all integer years as the proleptic Gregorian calendar. -/
def toOrd (t : PyDateTime) : Int :=
  365 * (t.year - 1) + (t.year - 1) / 4 - (t.year - 1) / 100 + (t.year - 1) / 400 +
    daysBeforeMonth t.year t.month + t.day

/-- Python's `date.weekday()`: Monday = 0; 0001-01-01 is a Monday. -/
def weekday (t : PyDateTime) : Int :=
  (toOrd t - 1) % 7

/-- The date fields are a real calendar date. -/
def ValidDT (t : PyDateTime) : Prop :=
  1 ≤ t.month ∧ t.month ≤ 12 ∧ 1 ≤ t.day ∧ t.day ≤ daysInMonth t.year t.month

instance (t : PyDateTime) : Decidable (ValidDT t) := by
  unfold ValidDT; infer_instance

/-- Advance the civil date by one day, keeping the time fields — the effect
of `+ timedelta(days=1)` on the date. -/
def nextDay (t : PyDateTime) : PyDateTime :=
  if t.day < daysInMonth t.year t.month then { t with day := t.day + 1 }
  else if t.month < 12 then { t with month := t.month + 1, day := 1 }
  else { t with year := t.year + 1, month := 1, day := 1 }

/-- Step the civil date back one day, keeping the time fields — the effect
of `- timedelta(days=1)` on the date. -/
def prevDay (t : PyDateTime) : PyDateTime :=
  if 1 < t.day then { t with day := t.day - 1 }
  else if 1 < t.month then { t with month := t.month - 1, day := daysInMonth t.year (t.month - 1) }
  else { t with year := t.year - 1, month := 12, day := 31 }

/-- `t + timedelta(days=n)` for `n ≥ 0`. -/
def addDays (t : PyDateTime) : Nat → PyDateTime
  | 0 => t
  | n + 1 => nextDay (addDays t n)

/-- `t - timedelta(days=n)` for `n ≥ 0`. -/
def subDays (t : PyDateTime) : Nat → PyDateTime
  | 0 => t
  | n + 1 => prevDay (subDays t n)

/-- `.replace(hour=0, minute=0, second=0, microsecond=0)`. -/
def atMidnight (t : PyDateTime) : PyDateTime :=
  { t with hour := 0, minute := 0, second := 0, microsecond := 0 }

/-- All four time-of-day fields are zero. -/
def isMidnightTime (t : PyDateTime) : Prop :=
  t.hour = 0 ∧ t.minute = 0 ∧ t.second = 0 ∧ t.microsecond = 0

/-- `period_bounds` (bot.py:311-325) on the local wall-clock datetime
`now_local = datetime.now(TZ)`, before the epoch conversion: day is
midnight of today to midnight plus one day; week is midnight of
`now - timedelta(days=now.weekday())` plus seven days; otherwise (month)
the first of the month at midnight to `replace(year+1, month=1)` when the
start month is December, else `replace(month=month+1)`. -/
def period_bounds (kind : String) (nowLocal : PyDateTime) : PyDateTime × PyDateTime :=
  if kind == "dia" then
    let start := atMidnight nowLocal
    (start, addDays start 1)
  else if kind == "semana" then
    let start := atMidnight (subDays nowLocal (weekday nowLocal).toNat)
    (start, addDays start 7)
  else
    let start := atMidnight { nowLocal with day := 1 }
    if start.month == 12 then
      (start, { start with year := start.year + 1, month := 1 })
    else
      (start, { start with month := start.month + 1 })

/-- One button-press callback already parsed into its payload, with the
pressing user and the wall-clock read at processing time. -/
structure Submission where
  event_id : Int
  choice : String
  user_id : Int
  uname : String
  now : Int
  deriving Repr, DecidableEq

/-- Process a sequence of submissions through `answer_cb`, in order. -/
def processAll (st : DB) : List Submission → DB
  | [] => st
  | s :: rest => processAll (answer_cb st s.event_id s.choice s.user_id s.uname s.now).1 rest

/-- The `PRIMARY KEY(event_id, user_id)` invariant of the `answers` table. -/
def answersKeysNodup (l : List AnswerRow) : Prop :=
  (l.map fun a => (a.event_id, a.user_id)).Nodup

instance (l : List AnswerRow) : Decidable (answersKeysNodup l) := by
  unfold answersKeysNodup; infer_instance

/-- `SELECT streak, best_streak FROM streaks WHERE chat_id=? AND user_id=?
... fetchone()`. -/
def findStreak (l : List StreakRow) (chat uid : Int) : Option StreakRow :=
  l.find? (streakKey chat uid)

/-- The streak-table invariant of claim C10: every row has
`best_streak ≥ streak` and `best_streak ≥ 0`. -/
def streakInvariant (l : List StreakRow) : Prop :=
  ∀ r ∈ l, r.streak ≤ r.best_streak ∧ 0 ≤ r.best_streak

instance (l : List StreakRow) : Decidable (streakInvariant l) := by
  unfold streakInvariant; infer_instance

/-- Between two streak-table states: every keyed row of the old state is
still keyed in the new one with a `best_streak` at least as large. -/
def bestNonDecreasing (old new : List StreakRow) : Prop :=
  ∀ chat uid r0, findStreak old chat uid = some r0 →
    ∃ r1, findStreak new chat uid = some r1 ∧ r0.best_streak ≤ r1.best_streak

/-- A sample open event: id 1 in chat 10, window `[0, 100]`. -/
def evA : EventRow := ⟨1, 10, "¿Pregunta?", "a|b", "a", 0, 100⟩

/-- A sample state in which user 7 already answered event 1. -/
def stDup : DB :=
  ⟨[⟨10, 7, "viejo", 50⟩], [evA], [⟨1, 7, "a", 1, 40⟩], [⟨10, 7, 1, 2⟩], []⟩

/-- A sample state with one recently seen user and no events at all. -/
def stRoster : DB := ⟨[⟨10, 7, "u", 1000⟩], [], [], [], []⟩

/-- A sample state with one event, one answering user (7) and one recently
seen user (8) with no answers. -/
def stRank : DB :=
  ⟨[⟨10, 7, "a", 50⟩, ⟨10, 8, "b", 60⟩], [evA], [⟨1, 7, "a", 1, 40⟩], [], []⟩

/-- Six events of chat 10 starting inside `[0, 100)`. -/
def sixEvents : List EventRow :=
  [⟨1, 10, "q1", "a|b", "a", 1, 181⟩, ⟨2, 10, "q2", "a|b", "a", 2, 182⟩,
   ⟨3, 10, "q3", "a|b", "a", 3, 183⟩, ⟨4, 10, "q4", "a|b", "a", 4, 184⟩,
   ⟨5, 10, "q5", "a|b", "a", 5, 185⟩, ⟨6, 10, "q6", "a|b", "a", 6, 186⟩]

/-- A sample state where user 7 answered all six of today's events
correctly and has no badges yet. -/
def stSixHits : DB :=
  ⟨[⟨10, 7, "u", 50⟩], sixEvents,
   [⟨1, 7, "a", 1, 10⟩, ⟨2, 7, "a", 1, 11⟩, ⟨3, 7, "a", 1, 12⟩,
    ⟨4, 7, "a", 1, 13⟩, ⟨5, 7, "a", 1, 14⟩, ⟨6, 7, "a", 1, 15⟩],
   [⟨10, 7, 2, 2⟩], []⟩

/-- A sample question list: one valid entry, one with the answer outside the
choices, one with a missing field. -/
def sampleQuestions : List RawQuestion :=
  [⟨some "q1", some ["a", "b"], some "a"⟩,
   ⟨some "q2", some ["a", "b"], some "c"⟩,
   ⟨some "q3", none, some "a"⟩]

/-- The validity content of `validQuestion` as a proposition: all three
fields present and the declared answer a member of the choice list. -/
def QuestionOK (r : RawQuestion) : Prop :=
  r.q.isSome = true ∧ ∃ a cs, r.answer = some a ∧ r.choices = some cs ∧ a ∈ cs

theorem validQuestion_iff (r : RawQuestion) : validQuestion r = true ↔ QuestionOK r := by
  unfold validQuestion QuestionOK
  cases hq : r.q <;> cases hc : r.choices <;> cases ha : r.answer <;>
    simp [List.elem_iff]

theorem find?_map_keyed {α : Type} (p : α → Bool) (g : α → α)
    (hp : ∀ a, p (g a) = p a) (l : List α) :
    (l.map fun a => if p a then g a else a).find? p = (l.find? p).map g := by
  induction l with
  | nil => rfl
  | cons a rest ih =>
    by_cases h : p a = true
    · simp [List.find?, h, hp]
    · simp only [List.map_cons, if_neg h]
      rw [List.find?_cons_of_neg _ (by simp [h]), List.find?_cons_of_neg _ h, ih]

/-- Claim C9: question loading keeps exactly the source entries with all
three required fields whose declared answer is among the choices; it raises
if and only if no valid entry remains; and every kept entry satisfies the
answer-membership invariant. -/
theorem load_questions_filters_and_fails_fast (data : List RawQuestion) :
    ((∃ e, load_questions data = Except.error e) ↔ data.filter validQuestion = []) ∧
    (∀ l, load_questions data = Except.ok l →
      l = data.filter validQuestion ∧ ∀ r ∈ l, QuestionOK r) := by
  unfold load_questions
  by_cases h : (data.filter validQuestion).isEmpty
  · simp only [h]
    constructor
    · simp [List.isEmpty_iff.mp h]
    · intro l hl; simp at hl
  · simp only [h]
    constructor
    · constructor
      · rintro ⟨e, he⟩; simp at he
      · intro hnil; rw [hnil] at h; simp at h
    · intro l hl
      simp only [Bool.false_eq_true, if_false, Except.ok.injEq] at hl
      subst hl
      exact ⟨rfl, fun r hr => (validQuestion_iff r).mp (List.of_mem_filter hr)⟩

/-- Claim C9 witness at the sample question list. -/
theorem load_questions_filters_and_fails_fast_witness :
    [(⟨some "q1", some ["a", "b"], some "a"⟩ : RawQuestion)] =
      sampleQuestions.filter validQuestion ∧
    ∀ r ∈ [(⟨some "q1", some ["a", "b"], some "a"⟩ : RawQuestion)], QuestionOK r :=
  (load_questions_filters_and_fails_fast sampleQuestions).2
    [⟨some "q1", some ["a", "b"], some "a"⟩] rfl

/-- Claim C3: a submission strictly after the event's end time is answered
with "time's up" and changes nothing (in particular no answer row is
inserted, whatever the chosen label), and a submission that does insert an
answer row was made at a time not exceeding the end time. -/
theorem late_answer_rejected (st : DB) (eid uid : Int) (choice uname : String)
    (now : Int) :
    (∀ ev, st.events.find? (fun e => e.id == eid) = some ev → ev.end_ts < now →
        answer_cb st eid choice uid uname now = (st, Ack.timesUp)) ∧
    ((answer_cb st eid choice uid uname now).1.answers ≠ st.answers →
        ∃ ev, st.events.find? (fun e => e.id == eid) = some ev ∧ now ≤ ev.end_ts) := by
  constructor
  · intro ev hev hlt
    unfold answer_cb
    rw [hev]
    simp only [gt_iff_lt, hlt, if_true]
  · intro hne
    unfold answer_cb at hne
    cases hfind : st.events.find? (fun e => e.id == eid) with
    | none => rw [hfind] at hne; simp at hne
    | some ev =>
      rw [hfind] at hne
      by_cases hlt : now > ev.end_ts
      · simp only [gt_iff_lt, hlt, if_true] at hne; exact absurd rfl hne
      · exact ⟨ev, rfl, by omega⟩

/-- Claim C3 witness: a concrete late submission on `stDup` is rejected. -/
theorem late_answer_rejected_witness :
    answer_cb stDup 1 "b" 7 "u" 200 = (stDup, Ack.timesUp) :=
  (late_answer_rejected stDup 1 7 "b" "u" 200).1 evA (by decide) (by decide)

/-- Claim C1 counterexample: on `stDup`, a duplicate submission at time 60
for the open event 1 is acknowledged "already answered", yet the `users`
collection is not exactly as before — the profile's name and last-seen
timestamp are refreshed and committed. -/
theorem answer_cb_duplicate_touches_users_cex :
    (answer_cb stDup 1 "a" 7 "nuevo" 60).2 = Ack.alreadyAnswered ∧
    (answer_cb stDup 1 "a" 7 "nuevo" 60).1.users ≠ stDup.users := by decide

/-- Claim C1 as amended: on a duplicate submission for an open, known event,
the handler acknowledges "already answered" and leaves the answers, events
and badges collections unchanged; the streaks collection is unchanged
exactly when the user's streak row already exists (a zero row is appended
otherwise), while the user's profile row is still upserted — when it
existed before, it now carries the submission's name and timestamp. -/
theorem answer_cb_duplicate_no_answer_change (st : DB) (eid uid : Int)
    (choice uname : String) (now : Int) (ev : EventRow)
    (hev : st.events.find? (fun e => e.id == eid) = some ev)
    (hopen : now ≤ ev.end_ts)
    (hdup : st.answers.any (answerKey eid uid) = true) :
    (answer_cb st eid choice uid uname now).2 = Ack.alreadyAnswered ∧
    (answer_cb st eid choice uid uname now).1.answers = st.answers ∧
    (answer_cb st eid choice uid uname now).1.events = st.events ∧
    (answer_cb st eid choice uid uname now).1.badges = st.badges ∧
    (st.streaks.any (streakKey ev.chat_id uid) = true →
      (answer_cb st eid choice uid uname now).1.streaks = st.streaks) ∧
    (st.streaks.any (streakKey ev.chat_id uid) = false →
      (answer_cb st eid choice uid uname now).1.streaks
        = st.streaks ++ [⟨ev.chat_id, uid, 0, 0⟩]) ∧
    (st.users.any (userKey ev.chat_id uid) = true →
      ((answer_cb st eid choice uid uname now).1.users.find?
          (userKey ev.chat_id uid)).map (fun u => (u.name, u.last_seen_ts))
        = some (uname, now)) := by
  have hng : ¬ now > ev.end_ts := by omega
  unfold answer_cb
  rw [hev]
  simp only [gt_iff_lt, hng, if_false, hdup, if_true]
  refine ⟨trivial, trivial, trivial, trivial, ?_, ?_, ?_⟩
  · intro hs; unfold ensureStreak; rw [hs]; simp
  · intro hs; unfold ensureStreak; rw [hs]; simp
  · intro hu
    unfold upsertUser
    rw [hu]
    simp only [if_true]
    rw [find?_map_keyed (userKey ev.chat_id uid)
      (fun r => { r with name := uname, last_seen_ts := now }) (fun a => rfl)]
    cases hfind : st.users.find? (userKey ev.chat_id uid) with
    | none =>
      rw [List.find?_eq_none] at hfind
      obtain ⟨x, hx, hpx⟩ := List.any_eq_true.mp hu
      exact absurd hpx (by simpa using hfind x hx)
    | some r0 => rfl

/-- Claim C1 amended-theorem witness at the concrete duplicate submission. -/
theorem answer_cb_duplicate_no_answer_change_witness :
    (answer_cb stDup 1 "a" 7 "nuevo" 60).2 = Ack.alreadyAnswered ∧
    (answer_cb stDup 1 "a" 7 "nuevo" 60).1.answers = stDup.answers :=
  ⟨(answer_cb_duplicate_no_answer_change stDup 1 7 "a" "nuevo" 60 evA rfl
      (by decide) (by decide)).1,
   (answer_cb_duplicate_no_answer_change stDup 1 7 "a" "nuevo" 60 evA rfl
      (by decide) (by decide)).2.1⟩

theorem answer_cb_preserves_nodup (st : DB) (eid : Int) (choice : String)
    (uid : Int) (uname : String) (now : Int) (h : answersKeysNodup st.answers) :
    answersKeysNodup (answer_cb st eid choice uid uname now).1.answers := by
  unfold answer_cb
  cases hfind : st.events.find? (fun e => e.id == eid) with
  | none => exact h
  | some ev =>
    by_cases hlt : now > ev.end_ts
    · simp only [gt_iff_lt, hlt, if_true]; exact h
    · simp only [gt_iff_lt, hlt, if_false]
      by_cases hdup : st.answers.any (answerKey eid uid) = true
      · simp only [hdup, if_true]; exact h
      · rw [Bool.not_eq_true] at hdup
        simp only [hdup, Bool.false_eq_true, if_false]
        unfold answersKeysNodup at h ⊢
        rw [List.map_append, List.nodup_append]
        refine ⟨h, by simp, fun x hx hx1 => ?_⟩
        simp only [List.map_cons, List.map_nil, List.mem_singleton] at hx1
        obtain ⟨a, ha, hka⟩ := List.mem_map.mp hx
        have : answerKey eid uid a = false := by
          have := List.any_eq_false.mp hdup a ha
          simpa using this
        unfold answerKey at this
        simp only [Bool.and_eq_false_iff, beq_eq_false_iff_ne] at this
        rw [hx1] at hka
        cases this with
        | inl hne => exact hne (congrArg Prod.fst hka)
        | inr hne => exact hne (congrArg Prod.snd hka)

/-- Claim C2 counterexample: in `stDup` user 7 already answered event 1,
yet a second submission arriving after the window is acknowledged
"time's up", not "already answered". -/
theorem late_duplicate_ack_cex :
    stDup.answers.any (answerKey 1 7) = true ∧
    (answer_cb stDup 1 "a" 7 "u" 200).2 = Ack.timesUp ∧
    (answer_cb stDup 1 "a" 7 "u" 200).2 ≠ Ack.alreadyAnswered := by decide

/-- Claim C2 as amended: the `(event_id, user_id)` keys of the answers
collection stay duplicate-free under any sequence of submissions, and a
submission whose key already has a record is a no-op on the answers
collection; it is acknowledged "already answered" when the event is found
and its window still open (a late or unknown-event duplicate gets the
corresponding rejection instead). -/
theorem answers_at_most_once (st : DB) (subs : List Submission)
    (h : answersKeysNodup st.answers) :
    answersKeysNodup (processAll st subs).answers ∧
    ∀ (eid uid : Int) (choice uname : String) (now : Int),
      st.answers.any (answerKey eid uid) = true →
      ((answer_cb st eid choice uid uname now).1.answers = st.answers ∧
       (∀ ev, st.events.find? (fun e => e.id == eid) = some ev → now ≤ ev.end_ts →
         (answer_cb st eid choice uid uname now).2 = Ack.alreadyAnswered)) := by
  constructor
  · induction subs generalizing st with
    | nil => exact h
    | cons s rest ih =>
      exact ih _ (answer_cb_preserves_nodup st s.event_id s.choice s.user_id
        s.uname s.now h)
  · intro eid uid choice uname now hdup
    constructor
    · unfold answer_cb
      cases hfind : st.events.find? (fun e => e.id == eid) with
      | none => rfl
      | some ev =>
        by_cases hlt : now > ev.end_ts
        · simp only [gt_iff_lt, hlt, if_true]
        · simp only [gt_iff_lt, hlt, if_false, hdup, if_true]
    · intro ev hev hopen
      have hng : ¬ now > ev.end_ts := by omega
      unfold answer_cb
      rw [hev]
      simp only [gt_iff_lt, hng, if_false, hdup, if_true]

/-- Claim C2 amended-theorem witness at a concrete duplicate submission. -/
theorem answers_at_most_once_witness :
    answersKeysNodup (processAll stDup [⟨1, "a", 7, "u", 60⟩]).answers ∧
    (answer_cb stDup 1 "a" 7 "u" 60).1.answers = stDup.answers :=
  ⟨(answers_at_most_once stDup [⟨1, "a", 7, "u", 60⟩] (by decide)).1,
   ((answers_at_most_once stDup [⟨1, "a", 7, "u", 60⟩] (by decide)).2
      1 7 "a" "u" 60 (by decide)).1⟩

theorem find?_map_invariant {α : Type} (p : α → Bool) (f : α → α) (l : List α)
    (hp : ∀ a, p (f a) = p a) (hfix : ∀ a, p a = true → f a = a) :
    (l.map f).find? p = l.find? p := by
  induction l with
  | nil => rfl
  | cons a rest ih =>
    by_cases h : p a = true
    · rw [List.map_cons, List.find?_cons_of_pos _ (by rw [hp]; exact h),
        List.find?_cons_of_pos _ h, hfix a h]
    · rw [List.map_cons, List.find?_cons_of_neg _ (by rw [hp]; exact h),
        List.find?_cons_of_neg _ h, ih]

theorem streakKey_iff (chat uid : Int) (r : StreakRow) :
    streakKey chat uid r = true ↔ r.chat_id = chat ∧ r.user_id = uid := by
  unfold streakKey; simp

theorem findStreak_streakUpdateOne_other (l : List StreakRow)
    (chat uid c ch u : Int) (h : ¬(chat = ch ∧ uid = u)) :
    findStreak (streakUpdateOne l chat uid c) ch u = findStreak l ch u := by
  have hfix : ∀ (r : StreakRow) (s b : Int), streakKey ch u r = true →
      (if streakKey chat uid r then
        { r with streak := s, best_streak := b } else r) = r := by
    intro r s b hr
    rw [if_neg]
    intro hk
    obtain ⟨h1, h2⟩ := (streakKey_iff chat uid r).mp hk
    obtain ⟨h3, h4⟩ := (streakKey_iff ch u r).mp hr
    exact h ⟨h1 ▸ h3, h2 ▸ h4⟩
  unfold streakUpdateOne findStreak
  cases hf : l.find? (streakKey chat uid) with
  | some r0 =>
    simp only
    exact find?_map_invariant _ _ _ (fun a => by split <;> rfl)
      (fun a ha => hfix a _ _ ha)
  | none =>
    simp only [List.map_append, List.find?_append]
    rw [find?_map_invariant _ _ _ (fun a => by split <;> rfl)
      (fun a ha => hfix a _ _ ha)]
    have hkey : streakKey chat uid (⟨chat, uid, 0, 0⟩ : StreakRow) = true := by
      rw [streakKey_iff]; exact ⟨rfl, rfl⟩
    have hz : (([(⟨chat, uid, 0, 0⟩ : StreakRow)]).map fun r =>
        if streakKey chat uid r then
          { r with streak := if (c == 1 : Bool) then (0:Int) + 1 else 0,
                   best_streak := max 0 (if (c == 1 : Bool) then (0:Int) + 1 else 0) }
        else r).find? (streakKey ch u) = none := by
      rw [List.find?_eq_none]
      intro x hx
      simp only [List.map_cons, List.map_nil, List.mem_singleton] at hx
      subst hx
      rw [if_pos hkey]
      intro hk
      obtain ⟨h3, h4⟩ := (streakKey_iff ch u _).mp hk
      exact h ⟨h3, h4⟩
    rw [hz, Option.or_none]

theorem findStreak_streakUpdateOne_self (l : List StreakRow) (chat uid c : Int) :
    findStreak (streakUpdateOne l chat uid c) chat uid =
      some (match findStreak l chat uid with
            | some r0 =>
              { r0 with
                streak := if (c == 1 : Bool) then r0.streak + 1 else 0,
                best_streak :=
                  max r0.best_streak (if (c == 1 : Bool) then r0.streak + 1 else 0) }
            | none =>
              ⟨chat, uid, if (c == 1 : Bool) then (0:Int) + 1 else 0,
               max 0 (if (c == 1 : Bool) then (0:Int) + 1 else 0)⟩) := by
  have hkey : streakKey chat uid (⟨chat, uid, 0, 0⟩ : StreakRow) = true := by
    rw [streakKey_iff]; exact ⟨rfl, rfl⟩
  unfold streakUpdateOne findStreak
  cases hf : l.find? (streakKey chat uid) with
  | some r0 =>
    simp only
    rw [find?_map_keyed (streakKey chat uid)
      (fun r => { r with
        streak := if (c == 1 : Bool) then r0.streak + 1 else 0,
        best_streak :=
          max r0.best_streak (if (c == 1 : Bool) then r0.streak + 1 else 0) })
      (fun a => rfl), hf]
    rfl
  | none =>
    simp only [List.map_append, List.find?_append]
    rw [find?_map_keyed (streakKey chat uid)
      (fun r => { r with
        streak := if (c == 1 : Bool) then (0:Int) + 1 else 0,
        best_streak := max 0 (if (c == 1 : Bool) then (0:Int) + 1 else 0) })
      (fun a => rfl), hf]
    have hpos : streakKey chat uid
        (if streakKey chat uid (⟨chat, uid, 0, 0⟩ : StreakRow) then
          ({ (⟨chat, uid, 0, 0⟩ : StreakRow) with
             streak := if (c == 1 : Bool) then (0:Int) + 1 else 0,
             best_streak := max 0 (if (c == 1 : Bool) then (0:Int) + 1 else 0) })
         else (⟨chat, uid, 0, 0⟩ : StreakRow)) = true := by
      rw [if_pos hkey]; exact hkey
    rw [List.map_cons, List.map_nil, List.find?_cons_of_pos _ hpos]
    simp [hkey]

theorem streakUpdateOne_invariant (l : List StreakRow) (chat uid c : Int)
    (h : streakInvariant l) : streakInvariant (streakUpdateOne l chat uid c) := by
  unfold streakUpdateOne
  cases hf : l.find? (streakKey chat uid) with
  | some r0 =>
    have hr0 := h r0 (List.mem_of_find?_eq_some hf)
    intro r hr
    obtain ⟨r1, hr1, hmap⟩ := List.mem_map.mp hr
    subst hmap
    by_cases hk : streakKey chat uid r1 = true
    · rw [if_pos hk]
      exact ⟨le_max_right _ _, le_trans hr0.2 (le_max_left _ _)⟩
    · rw [if_neg hk]
      exact h r1 hr1
  | none =>
    intro r hr
    obtain ⟨r1, hr1, hmap⟩ := List.mem_map.mp hr
    subst hmap
    by_cases hk : streakKey chat uid r1 = true
    · rw [if_pos hk]
      exact ⟨le_max_right _ _, le_max_left _ _⟩
    · rw [if_neg hk]
      rcases List.mem_append.mp hr1 with h1 | h1
      · exact h r1 h1
      · rw [List.mem_singleton] at h1
        subst h1
        exact ⟨le_refl _, le_refl _⟩

theorem streakUpdateOne_mono (l : List StreakRow) (chat uid c : Int) :
    bestNonDecreasing l (streakUpdateOne l chat uid c) := by
  intro ch u r0 h0
  by_cases hk : chat = ch ∧ uid = u
  · obtain ⟨rfl, rfl⟩ := hk
    rw [findStreak_streakUpdateOne_self]
    rw [h0]
    exact ⟨_, rfl, le_max_left _ _⟩
  · rw [findStreak_streakUpdateOne_other _ _ _ _ _ _ hk]
    exact ⟨r0, h0, le_refl _⟩

theorem bestNonDecreasing_refl (l : List StreakRow) : bestNonDecreasing l l :=
  fun _ _ r0 h0 => ⟨r0, h0, le_refl _⟩

theorem bestNonDecreasing_trans {a b c : List StreakRow}
    (h1 : bestNonDecreasing a b) (h2 : bestNonDecreasing b c) :
    bestNonDecreasing a c := by
  intro ch u r0 h0
  obtain ⟨r1, hr1, hb1⟩ := h1 ch u r0 h0
  obtain ⟨r2, hr2, hb2⟩ := h2 ch u r1 hr1
  exact ⟨r2, hr2, le_trans hb1 hb2⟩

theorem foldl_streakUpdateOne_invariant (ans : List AnswerRow) (chat : Int)
    (l : List StreakRow) (h : streakInvariant l) :
    streakInvariant (ans.foldl
      (fun l a => streakUpdateOne l chat a.user_id a.correct) l) := by
  induction ans generalizing l with
  | nil => exact h
  | cons a rest ih => exact ih _ (streakUpdateOne_invariant l chat a.user_id a.correct h)

theorem foldl_streakUpdateOne_mono (ans : List AnswerRow) (chat : Int)
    (l : List StreakRow) :
    bestNonDecreasing l (ans.foldl
      (fun l a => streakUpdateOne l chat a.user_id a.correct) l) := by
  induction ans generalizing l with
  | nil => exact bestNonDecreasing_refl l
  | cons a rest ih =>
    exact bestNonDecreasing_trans (streakUpdateOne_mono l chat a.user_id a.correct) (ih _)

theorem ensureStreak_invariant (l : List StreakRow) (chat uid : Int)
    (h : streakInvariant l) : streakInvariant (ensureStreak l chat uid) := by
  unfold ensureStreak
  split
  · exact h
  · intro r hr
    rcases List.mem_append.mp hr with h1 | h1
    · exact h r h1
    · rw [List.mem_singleton] at h1
      subst h1
      exact ⟨le_refl _, le_refl _⟩

theorem ensureStreak_mono (l : List StreakRow) (chat uid : Int) :
    bestNonDecreasing l (ensureStreak l chat uid) := by
  unfold ensureStreak
  split
  · exact bestNonDecreasing_refl l
  · intro ch u r0 h0
    refine ⟨r0, ?_, le_refl _⟩
    unfold findStreak at h0 ⊢
    rw [List.find?_append, h0]
    rfl

theorem answer_cb_streaks_cases (st : DB) (eid : Int) (choice : String)
    (uid : Int) (uname : String) (now : Int) :
    (answer_cb st eid choice uid uname now).1.streaks = st.streaks ∨
    ∃ chat, (answer_cb st eid choice uid uname now).1.streaks
      = ensureStreak st.streaks chat uid := by
  unfold answer_cb
  cases hfind : st.events.find? (fun e => e.id == eid) with
  | none => exact Or.inl rfl
  | some ev =>
    by_cases hlt : now > ev.end_ts
    · simp only [gt_iff_lt, hlt, if_true]
      exact Or.inl trivial
    · simp only [gt_iff_lt, hlt, if_false]
      by_cases hdup : st.answers.any (answerKey eid uid) = true
      · simp only [hdup, if_true]
        exact Or.inr ⟨ev.chat_id, rfl⟩
      · rw [Bool.not_eq_true] at hdup
        simp only [hdup, Bool.false_eq_true, if_false]
        exact Or.inr ⟨ev.chat_id, rfl⟩

theorem close_event_job_streaks_cases (st : DB) (eid : Int) :
    (close_event_job st eid).streaks = st.streaks ∨
    ∃ ev, st.events.find? (fun e => e.id == eid) = some ev ∧
      (close_event_job st eid).streaks =
        (st.answers.filter (fun a => a.event_id == eid)).foldl
          (fun l a => streakUpdateOne l ev.chat_id a.user_id a.correct) st.streaks := by
  unfold close_event_job
  cases hfind : st.events.find? (fun e => e.id == eid) with
  | none => exact Or.inl rfl
  | some ev => exact Or.inr ⟨ev, rfl, rfl⟩

/-- Claim C10: the three operations that touch the streaks collection —
the touch-user row creation, the submission-time row creation, and the
close-out update — preserve the invariant `best_streak ≥ streak ∧
best_streak ≥ 0`, and none of them decreases any row's `best_streak`. -/
theorem streak_ops_invariant (st : DB) (chat uid eid : Int)
    (choice uname : String) (now : Int) :
    ((streakInvariant st.streaks →
        streakInvariant (touch_user st chat uid uname now).streaks) ∧
      bestNonDecreasing st.streaks (touch_user st chat uid uname now).streaks) ∧
    ((streakInvariant st.streaks →
        streakInvariant (answer_cb st eid choice uid uname now).1.streaks) ∧
      bestNonDecreasing st.streaks (answer_cb st eid choice uid uname now).1.streaks) ∧
    ((streakInvariant st.streaks →
        streakInvariant (close_event_job st eid).streaks) ∧
      bestNonDecreasing st.streaks (close_event_job st eid).streaks) := by
  refine ⟨⟨fun h => ensureStreak_invariant _ _ _ h, ensureStreak_mono _ _ _⟩, ⟨?_, ?_⟩, ⟨?_, ?_⟩⟩
  · intro h
    rcases answer_cb_streaks_cases st eid choice uid uname now with hc | ⟨c, hc⟩ <;> rw [hc]
    · exact h
    · exact ensureStreak_invariant _ _ _ h
  · rcases answer_cb_streaks_cases st eid choice uid uname now with hc | ⟨c, hc⟩ <;> rw [hc]
    · exact bestNonDecreasing_refl _
    · exact ensureStreak_mono _ _ _
  · intro h
    rcases close_event_job_streaks_cases st eid with hc | ⟨ev, _, hc⟩ <;> rw [hc]
    · exact h
    · exact foldl_streakUpdateOne_invariant _ _ _ h
  · rcases close_event_job_streaks_cases st eid with hc | ⟨ev, _, hc⟩ <;> rw [hc]
    · exact bestNonDecreasing_refl _
    · exact foldl_streakUpdateOne_mono _ _ _

/-- Claim C10 witness: the invariant holds concretely after a close-out on
`stDup`. -/
theorem streak_ops_invariant_witness :
    streakInvariant (close_event_job stDup 1).streaks :=
  (streak_ops_invariant stDup 10 7 1 "a" "u" 60).2.2.1 (by decide)

theorem foldl_streakUpdateOne_not_mem (ans : List AnswerRow) (chat : Int)
    (l : List StreakRow) (u : Int) (h : ∀ a ∈ ans, a.user_id ≠ u) :
    findStreak (ans.foldl
        (fun l a => streakUpdateOne l chat a.user_id a.correct) l) chat u
      = findStreak l chat u := by
  induction ans generalizing l with
  | nil => rfl
  | cons a rest ih =>
    rw [List.foldl_cons, ih _ (fun x hx => h x (List.mem_cons_of_mem _ hx)),
      findStreak_streakUpdateOne_other _ _ _ _ _ _
        (fun hk => h a (List.mem_cons_self _ _) hk.2)]

theorem filter_event_uids_nodup (answers : List AnswerRow) (eid : Int)
    (h : answersKeysNodup answers) :
    ((answers.filter fun a => a.event_id == eid).map (·.user_id)).Nodup := by
  unfold answersKeysNodup at h
  have h2 : ((answers.filter fun a => a.event_id == eid).map
      fun a => (a.event_id, a.user_id)).Nodup :=
    h.sublist ((List.filter_sublist _).map _)
  rw [List.Nodup, List.pairwise_map] at h2 ⊢
  refine h2.imp_of_mem ?_
  intro a b ha hb hne heq
  apply hne
  have hae : a.event_id = eid := by
    simpa using (List.mem_filter.mp ha).2
  have hbe : b.event_id = eid := by
    simpa using (List.mem_filter.mp hb).2
  rw [Prod.ext_iff]
  exact ⟨hae.trans hbe.symm, heq⟩

/-- Claim C4: at close-out, every user with a recorded answer on the event
has their streak row set to `S+1` on a correct answer and `0` otherwise,
with `best = max(B, new streak)` for prior values `(S, B)`, a zero row
being created first when none existed; a user with no recorded answer on
the event keeps their streak row unchanged. -/
theorem close_event_streak_law (st : DB) (eid : Int) (ev : EventRow)
    (hev : st.events.find? (fun e => e.id == eid) = some ev)
    (hnd : answersKeysNodup st.answers) :
    (∀ a ∈ st.answers, a.event_id = eid →
      findStreak (close_event_job st eid).streaks ev.chat_id a.user_id =
        some (match findStreak st.streaks ev.chat_id a.user_id with
              | some r0 =>
                { r0 with
                  streak := if (a.correct == 1 : Bool) then r0.streak + 1 else 0,
                  best_streak := max r0.best_streak
                    (if (a.correct == 1 : Bool) then r0.streak + 1 else 0) }
              | none =>
                ⟨ev.chat_id, a.user_id,
                 if (a.correct == 1 : Bool) then (0:Int) + 1 else 0,
                 max 0 (if (a.correct == 1 : Bool) then (0:Int) + 1 else 0)⟩)) ∧
    (∀ uid, (∀ a ∈ st.answers, ¬(a.event_id = eid ∧ a.user_id = uid)) →
      findStreak (close_event_job st eid).streaks ev.chat_id uid
        = findStreak st.streaks ev.chat_id uid) := by
  have hclose : (close_event_job st eid).streaks =
      (st.answers.filter (fun a => a.event_id == eid)).foldl
        (fun l a => streakUpdateOne l ev.chat_id a.user_id a.correct) st.streaks := by
    unfold close_event_job
    rw [hev]
  constructor
  · intro a ha haeid
    have hmem : a ∈ st.answers.filter (fun a => a.event_id == eid) :=
      List.mem_filter.mpr ⟨ha, by simp [haeid]⟩
    obtain ⟨s, t, hst⟩ := List.append_of_mem hmem
    have huids := filter_event_uids_nodup st.answers eid hnd
    rw [hst, List.map_append, List.map_cons, List.nodup_append] at huids
    obtain ⟨hnds, hndtc, hdisj⟩ := huids
    have hs : ∀ x ∈ s, x.user_id ≠ a.user_id := fun x hx heq =>
      hdisj (List.mem_map_of_mem _ hx) (by rw [heq]; exact List.mem_cons_self _ _)
    have ht : ∀ x ∈ t, x.user_id ≠ a.user_id := fun x hx heq =>
      (List.nodup_cons.mp hndtc).1 (heq ▸ List.mem_map_of_mem _ hx)
    rw [hclose, hst, List.foldl_append, List.foldl_cons,
      foldl_streakUpdateOne_not_mem t _ _ _ ht,
      findStreak_streakUpdateOne_self,
      foldl_streakUpdateOne_not_mem s _ _ _ hs]
  · intro uid h
    rw [hclose]
    apply foldl_streakUpdateOne_not_mem
    intro x hx he
    obtain ⟨hx1, hx2⟩ := List.mem_filter.mp hx
    exact h x hx1 ⟨by simpa using hx2, he⟩

/-- Claim C4 witness: on `stDup`, closing event 1 leaves the streak row of
the non-answering user 99 unchanged, and updates user 7's row by the law. -/
theorem close_event_streak_law_witness :
    findStreak (close_event_job stDup 1).streaks 10 99
      = findStreak stDup.streaks 10 99 :=
  (close_event_streak_law stDup 1 evA rfl (by decide)).2 99 (by decide)

theorem findBadge_code (code : String) : (findBadge code).code = code := by
  unfold findBadge
  cases hf : BADGES.find? (fun b => b.code == code) with
  | none => rfl
  | some b =>
    have hb := List.find?_some hf
    rw [beq_iff_eq] at hb
    simpa using hb

theorem tryInsertBadge_presence (chat uid now : Int) (bd : BadgeSpec)
    (pkey : String) (acc : List BadgeRow × AwardMap) :
    (tryInsertBadge chat uid now bd pkey acc).1.any
      (badgeKey chat uid bd.code pkey) = true := by
  unfold tryInsertBadge
  split
  · assumption
  · rw [List.any_append]
    have : badgeKey chat uid bd.code pkey
        (⟨chat, uid, bd.code, bd.name, now, "dia", pkey⟩ : BadgeRow) = true := by
      unfold badgeKey; simp
    simp [this]

theorem tryInsertBadge_mono (chat uid now : Int) (bd : BadgeSpec)
    (pkey : String) (acc : List BadgeRow × AwardMap) (c2 u2 : Int)
    (cd2 k2 : String) (h : acc.1.any (badgeKey c2 u2 cd2 k2) = true) :
    (tryInsertBadge chat uid now bd pkey acc).1.any
      (badgeKey c2 u2 cd2 k2) = true := by
  unfold tryInsertBadge
  split
  · exact h
  · rw [List.any_append, h, Bool.true_or]

theorem tryInsertBadge_skip (chat uid now : Int) (bd : BadgeSpec)
    (pkey : String) (acc : List BadgeRow × AwardMap)
    (h : acc.1.any (badgeKey chat uid bd.code pkey) = true) :
    tryInsertBadge chat uid now bd pkey acc = acc := by
  unfold tryInsertBadge
  rw [if_pos h]

theorem tryInsertBadge_absent (chat uid now : Int) (bd : BadgeSpec)
    (pkey : String) (acc : List BadgeRow × AwardMap) (c2 u2 : Int)
    (cd2 k2 : String) (h : acc.1.any (badgeKey c2 u2 cd2 k2) = false)
    (hne : ¬(chat = c2 ∧ uid = u2 ∧ bd.code = cd2 ∧ pkey = k2)) :
    (tryInsertBadge chat uid now bd pkey acc).1.any
      (badgeKey c2 u2 cd2 k2) = false := by
  unfold tryInsertBadge
  split
  · exact h
  · rw [List.any_append, h, Bool.false_or]
    unfold badgeKey
    simp only [List.any_cons, List.any_nil, Bool.or_false, Bool.and_eq_true,
      beq_iff_eq, Bool.and_eq_false_iff, beq_eq_false_iff_ne, ne_eq]
    by_contra hc
    push_neg at hc
    exact hne ⟨hc.1.1.1, hc.1.1.2, hc.1.2, hc.2⟩

theorem awardTiers_mono (chat now : Int) (pkey : String)
    (tiers : List (String × Int)) (uid v : Int) (acc : List BadgeRow × AwardMap)
    (c2 u2 : Int) (cd2 k2 : String)
    (h : acc.1.any (badgeKey c2 u2 cd2 k2) = true) :
    (awardTiers chat now pkey tiers uid v acc).1.any
      (badgeKey c2 u2 cd2 k2) = true := by
  unfold awardTiers
  induction tiers generalizing acc with
  | nil => exact h
  | cons ct rest ih =>
    rw [List.foldl_cons]
    apply ih
    split
    · exact tryInsertBadge_mono _ _ _ _ _ _ _ _ _ _ h
    · exact h

theorem awardTiers_presence (chat now : Int) (pkey : String)
    (tiers : List (String × Int)) (uid v : Int) (acc : List BadgeRow × AwardMap)
    (ct : String × Int) (hv : ct.2 ≤ v) :
    ct ∈ tiers →
    (awardTiers chat now pkey tiers uid v acc).1.any
      (badgeKey chat uid ct.1 pkey) = true := by
  unfold awardTiers
  induction tiers generalizing acc with
  | nil => intro hct; cases hct
  | cons c rest ih =>
    intro hct
    rw [List.foldl_cons]
    rcases List.mem_cons.mp hct with rfl | hmem
    · have hstep : ((if v ≥ ct.2 then
          tryInsertBadge chat uid now (findBadge ct.1) pkey acc else acc)).1.any
            (badgeKey chat uid ct.1 pkey) = true := by
        rw [if_pos hv]
        have hp := tryInsertBadge_presence chat uid now (findBadge ct.1) pkey acc
        rwa [findBadge_code] at hp
      exact awardTiers_mono chat now pkey rest uid v _ chat uid ct.1 pkey hstep
    · exact ih _ hmem

theorem awardTiers_skip (chat now : Int) (pkey : String)
    (tiers : List (String × Int)) (uid v : Int) (acc : List BadgeRow × AwardMap) :
    (∀ ct ∈ tiers, ct.2 ≤ v → acc.1.any (badgeKey chat uid ct.1 pkey) = true) →
    awardTiers chat now pkey tiers uid v acc = acc := by
  unfold awardTiers
  induction tiers with
  | nil => intro _; rfl
  | cons ct rest ih =>
    intro h
    rw [List.foldl_cons]
    have hstep : (if v ≥ ct.2 then
        tryInsertBadge chat uid now (findBadge ct.1) pkey acc else acc) = acc := by
      split
      · apply tryInsertBadge_skip
        rw [findBadge_code]
        exact h ct (List.mem_cons_self _ _) (by assumption)
      · rfl
    rw [hstep]
    exact ih (fun c hc hv => h c (List.mem_cons_of_mem _ hc) hv)

theorem awardTiers_absent (chat now : Int) (pkey : String)
    (tiers : List (String × Int)) (uid v : Int) (acc : List BadgeRow × AwardMap)
    (c2 u2 : Int) (cd2 k2 : String) :
    acc.1.any (badgeKey c2 u2 cd2 k2) = false →
    (∀ ct ∈ tiers, ct.2 ≤ v → ¬(chat = c2 ∧ uid = u2 ∧ ct.1 = cd2 ∧ pkey = k2)) →
    (awardTiers chat now pkey tiers uid v acc).1.any
      (badgeKey c2 u2 cd2 k2) = false := by
  unfold awardTiers
  induction tiers generalizing acc with
  | nil => intro h _; exact h
  | cons ct rest ih =>
    intro h hne
    rw [List.foldl_cons]
    apply ih
    · split
      · apply tryInsertBadge_absent _ _ _ _ _ _ _ _ _ _ h
        intro hc
        refine hne ct (List.mem_cons_self _ _) (by assumption)
          ⟨hc.1, hc.2.1, ?_, hc.2.2.2⟩
        rw [← findBadge_code ct.1]
        exact hc.2.2.1
      · exact h
    · exact fun c hc hv => hne c (List.mem_cons_of_mem _ hc) hv

theorem awardPass_mono (chat now : Int) (pkey : String)
    (tiers : List (String × Int)) (pairs : List (Int × Int))
    (acc : List BadgeRow × AwardMap) (c2 u2 : Int) (cd2 k2 : String)
    (h : acc.1.any (badgeKey c2 u2 cd2 k2) = true) :
    (awardPass chat now pkey tiers pairs acc).1.any
      (badgeKey c2 u2 cd2 k2) = true := by
  unfold awardPass
  induction pairs generalizing acc with
  | nil => exact h
  | cons p rest ih =>
    rw [List.foldl_cons]
    exact ih _ (awardTiers_mono chat now pkey tiers p.1 p.2 acc c2 u2 cd2 k2 h)

theorem awardPass_presence (chat now : Int) (pkey : String)
    (tiers : List (String × Int)) (pairs : List (Int × Int))
    (acc : List BadgeRow × AwardMap) (p : Int × Int) (ct : String × Int)
    (hct : ct ∈ tiers) (hv : ct.2 ≤ p.2) :
    p ∈ pairs →
    (awardPass chat now pkey tiers pairs acc).1.any
      (badgeKey chat p.1 ct.1 pkey) = true := by
  unfold awardPass
  induction pairs generalizing acc with
  | nil => intro hp; cases hp
  | cons q rest ih =>
    intro hp
    rw [List.foldl_cons]
    rcases List.mem_cons.mp hp with rfl | hmem
    · exact awardPass_mono chat now pkey tiers rest _ chat p.1 ct.1 pkey
        (awardTiers_presence chat now pkey tiers p.1 p.2 acc ct hv hct)
    · exact ih _ hmem

theorem awardPass_skip (chat now : Int) (pkey : String)
    (tiers : List (String × Int)) (pairs : List (Int × Int))
    (acc : List BadgeRow × AwardMap) :
    (∀ p ∈ pairs, ∀ ct ∈ tiers, ct.2 ≤ p.2 →
        acc.1.any (badgeKey chat p.1 ct.1 pkey) = true) →
    awardPass chat now pkey tiers pairs acc = acc := by
  unfold awardPass
  induction pairs with
  | nil => intro _; rfl
  | cons p rest ih =>
    intro h
    rw [List.foldl_cons, awardTiers_skip chat now pkey tiers p.1 p.2 acc
      (fun ct hct hv => h p (List.mem_cons_self _ _) ct hct hv)]
    exact ih (fun q hq ct hct hv => h q (List.mem_cons_of_mem _ hq) ct hct hv)

theorem awardPass_absent (chat now : Int) (pkey : String)
    (tiers : List (String × Int)) (pairs : List (Int × Int))
    (acc : List BadgeRow × AwardMap) (c2 u2 : Int) (cd2 k2 : String) :
    acc.1.any (badgeKey c2 u2 cd2 k2) = false →
    (∀ p ∈ pairs, ∀ ct ∈ tiers, ct.2 ≤ p.2 →
        ¬(chat = c2 ∧ p.1 = u2 ∧ ct.1 = cd2 ∧ pkey = k2)) →
    (awardPass chat now pkey tiers pairs acc).1.any
      (badgeKey c2 u2 cd2 k2) = false := by
  unfold awardPass
  induction pairs generalizing acc with
  | nil => intro h _; exact h
  | cons p rest ih =>
    intro h hne
    rw [List.foldl_cons]
    exact ih _
      (awardTiers_absent chat now pkey tiers p.1 p.2 acc c2 u2 cd2 k2 h
        (fun ct hct hv => hne p (List.mem_cons_self _ _) ct hct hv))
      (fun q hq ct hct hv => hne q (List.mem_cons_of_mem _ hq) ct hct hv)

theorem awardBadgesResult_presence_day (st : DB) (chat t0 t1 now : Int)
    (key : String) (p : Int × Int) (hp : p ∈ dayRows st chat t0 t1)
    (ct : String × Int) (hct : ct ∈ dayTiers) (hv : ct.2 ≤ p.2) :
    (awardBadgesResult st chat t0 t1 now key).1.any
      (badgeKey chat p.1 ct.1 key) = true := by
  unfold awardBadgesResult
  exact awardPass_mono _ _ _ _ _ _ _ _ _ _
    (awardPass_presence _ _ _ _ _ _ p ct hct hv hp)

theorem awardBadgesResult_presence_streak (st : DB) (chat t0 t1 now : Int)
    (key : String) (p : Int × Int) (hp : p ∈ chatStreakRows st chat)
    (ct : String × Int) (hct : ct ∈ streakTiers) (hv : ct.2 ≤ p.2) :
    (awardBadgesResult st chat t0 t1 now key).1.any
      (badgeKey chat p.1 ct.1 key) = true := by
  unfold awardBadgesResult
  exact awardPass_presence _ _ _ _ _ _ p ct hct hv hp

theorem awardBadgesResult_idem (st : DB) (chat t0 t1 now1 now2 : Int)
    (key : String) :
    awardBadgesResult (award_daily_badges st chat t0 t1 now1 key).1
        chat t0 t1 now2 key
      = ((awardBadgesResult st chat t0 t1 now1 key).1, []) := by
  have h1 : dayRows (award_daily_badges st chat t0 t1 now1 key).1 chat t0 t1
      = dayRows st chat t0 t1 := rfl
  have h2 : chatStreakRows (award_daily_badges st chat t0 t1 now1 key).1 chat
      = chatStreakRows st chat := rfl
  have h3 : (award_daily_badges st chat t0 t1 now1 key).1.badges
      = (awardBadgesResult st chat t0 t1 now1 key).1 := rfl
  unfold awardBadgesResult
  rw [h1, h2, h3]
  rw [awardPass_skip chat now2 key dayTiers (dayRows st chat t0 t1)
    ((awardBadgesResult st chat t0 t1 now1 key).1, ([] : AwardMap))
    (fun p hp ct hct hv => awardBadgesResult_presence_day st chat t0 t1 now1 key
      p hp ct hct hv)]
  rw [awardPass_skip chat now2 key streakTiers (chatStreakRows st chat)
    ((awardBadgesResult st chat t0 t1 now1 key).1, ([] : AwardMap))
    (fun p hp ct hct hv => awardBadgesResult_presence_streak st chat t0 t1 now1 key
      p hp ct hct hv)]
  rfl

/-- Claim C5: running the daily badge pass a second time for the same chat,
period bounds and day key changes no badge record (so no duplicates are
inserted) and returns the empty award map — every already-awarded badge is
silently skipped and excluded. -/
theorem award_daily_badges_idempotent (st : DB) (chat t0 t1 now1 now2 : Int)
    (key : String) :
    (award_daily_badges (award_daily_badges st chat t0 t1 now1 key).1
        chat t0 t1 now2 key).1.badges
      = (award_daily_badges st chat t0 t1 now1 key).1.badges ∧
    (award_daily_badges (award_daily_badges st chat t0 t1 now1 key).1
        chat t0 t1 now2 key).2 = [] := by
  have h := awardBadgesResult_idem st chat t0 t1 now1 now2 key
  constructor
  · show (awardBadgesResult (award_daily_badges st chat t0 t1 now1 key).1
        chat t0 t1 now2 key).1 = (awardBadgesResult st chat t0 t1 now1 key).1
    rw [h]
  · show (awardBadgesResult (award_daily_badges st chat t0 t1 now1 key).1
        chat t0 t1 now2 key).2 = []
    rw [h]

theorem dayRows_mem_val (st : DB) (chat t0 t1 u v : Int)
    (h : (u, v) ∈ dayRows st chat t0 t1) :
    v = hitsOf (dayAnswers st chat t0 t1) u := by
  unfold dayRows at h
  obtain ⟨uid, _, heq⟩ := List.mem_map.mp h
  rw [Prod.mk.injEq] at heq
  rw [← heq.2, ← heq.1]

theorem dayTiers_code_det (c : String) (x y : Int)
    (hx : (c, x) ∈ dayTiers) (hy : (c, y) ∈ dayTiers) : x = y := by
  simp only [dayTiers, List.mem_cons, List.mem_singleton, Prod.mk.injEq,
    List.not_mem_nil, or_false] at hx hy
  rcases hx with ⟨rfl, rfl⟩ | ⟨rfl, rfl⟩ | ⟨rfl, rfl⟩ <;>
    rcases hy with ⟨hc, rfl⟩ | ⟨hc, rfl⟩ | ⟨hc, rfl⟩ <;> simp_all

theorem dayTiers_codes (ct : String × Int) (hct : ct ∈ dayTiers) :
    ct.1 = "BRONCE_DIA" ∨ ct.1 = "PLATA_DIA" ∨ ct.1 = "ORO_DIA" := by
  simp only [dayTiers, List.mem_cons, List.mem_singleton,
    List.not_mem_nil, or_false] at hct
  rcases hct with rfl | rfl | rfl <;> simp

theorem streakTiers_codes (ct : String × Int) (hct : ct ∈ streakTiers) :
    ct.1 = "RACHA_3" ∨ ct.1 = "RACHA_5" := by
  simp only [streakTiers, List.mem_cons, List.mem_singleton,
    List.not_mem_nil, or_false] at hct
  rcases hct with rfl | rfl <;> simp

/-- Claim C8: for a user whose hit count over the day's events is `h` and
who has no prior record of a given day badge for the day key, the daily pass
leaves that badge present afterwards exactly when `h` reaches the tier's
threshold — each of BRONZE (3), SILVER (5) and GOLD (6) independently, so
one user can collect several tiers in one run. -/
theorem day_badge_thresholds (st : DB) (chat t0 t1 now : Int) (key : String)
    (uid h : Int) (hmem : (uid, h) ∈ dayRows st chat t0 t1)
    (code : String) (th : Int) (hct : (code, th) ∈ dayTiers)
    (hfresh : st.badges.any (badgeKey chat uid code key) = false) :
    ((award_daily_badges st chat t0 t1 now key).1.badges.any
      (badgeKey chat uid code key) = true) ↔ th ≤ h := by
  constructor
  · intro hafter
    by_contra hnot
    push_neg at hnot
    have habs : (award_daily_badges st chat t0 t1 now key).1.badges.any
        (badgeKey chat uid code key) = false := by
      show (awardBadgesResult st chat t0 t1 now key).1.any
        (badgeKey chat uid code key) = false
      unfold awardBadgesResult
      apply awardPass_absent
      · apply awardPass_absent
        · exact hfresh
        · intro p hp ct hct2 hv hcontra
          obtain ⟨_, hpu, hcode, _⟩ := hcontra
          have hpv : p.2 = h := by
            have e1 := dayRows_mem_val st chat t0 t1 p.1 p.2
              (by rw [show (p.1, p.2) = p from rfl]; exact hp)
            have e2 := dayRows_mem_val st chat t0 t1 uid h hmem
            rw [hpu] at e1
            rw [e1, e2]
          have hth : ct.2 = th := by
            apply dayTiers_code_det code
            · rw [← hcode]
              rw [show (ct.1, ct.2) = ct from rfl]
              exact hct2
            · exact hct
          omega
      · intro p hp ct hct2 hv hcontra
        obtain ⟨_, _, hcode, _⟩ := hcontra
        have hc1 := streakTiers_codes ct hct2
        have hc2 := dayTiers_codes (code, th) hct
        simp only at hc2
        rw [hcode] at hc1
        rcases hc1 with hc1 | hc1 <;> rcases hc2 with hc2 | hc2 | hc2 <;>
          simp_all
    rw [hafter] at habs
    exact absurd habs (by simp)
  · intro hge
    show (awardBadgesResult st chat t0 t1 now key).1.any
      (badgeKey chat uid code key) = true
    unfold awardBadgesResult
    exact awardPass_mono _ _ _ _ _ _ _ _ _ _
      (awardPass_presence _ _ _ _ _ _ (uid, h) (code, th) hct hge hmem)

theorem toOrd_nextDay (t : PyDateTime) (h : ValidDT t) :
    toOrd (nextDay t) = toOrd t + 1 := by
  obtain ⟨h1, h2, h3, h4⟩ := h
  unfold nextDay
  split_ifs with hd hm
  · simp only [toOrd]
    omega
  · have hday : t.day = daysInMonth t.year t.month := by omega
    simp only [toOrd]
    rw [hday]
    have hgen : ∃ m, t.month = m := ⟨t.month, rfl⟩
    obtain ⟨m, hM⟩ := hgen
    rw [hM] at hm h1 ⊢
    interval_cases m <;> simp [daysBeforeMonth, daysInMonth] <;> split_ifs <;> omega
  · have hm12 : t.month = 12 := by omega
    have hday : t.day = daysInMonth t.year t.month := by omega
    simp only [toOrd]
    rw [hday, hm12]
    simp [daysBeforeMonth, daysInMonth]
    split_ifs with hL <;>
      [skip; skip] <;>
      simp only [isLeap, Bool.and_eq_true, Bool.or_eq_true, beq_iff_eq,
        bne_iff_ne, ne_eq] at hL <;> omega

theorem daysInMonth_pos (y m : Int) : 1 ≤ daysInMonth y m := by
  unfold daysInMonth
  split_ifs <;> omega

theorem toOrd_prevDay (t : PyDateTime) (h : ValidDT t) :
    toOrd (prevDay t) = toOrd t - 1 := by
  obtain ⟨h1, h2, h3, h4⟩ := h
  unfold prevDay
  split_ifs with hd hm
  · simp only [toOrd]
    omega
  · have hday : t.day = 1 := by omega
    simp only [toOrd]
    rw [hday]
    obtain ⟨m, hM⟩ : ∃ m, t.month = m := ⟨t.month, rfl⟩
    rw [hM] at hm h2 ⊢
    interval_cases m <;> simp [daysBeforeMonth, daysInMonth] <;> split_ifs <;> omega
  · have hm1 : t.month = 1 := by omega
    have hday : t.day = 1 := by omega
    simp only [toOrd]
    rw [hday, hm1]
    simp [daysBeforeMonth, daysInMonth]
    split_ifs with hL <;>
      simp only [isLeap, Bool.and_eq_true, Bool.or_eq_true, beq_iff_eq,
        bne_iff_ne, ne_eq] at hL <;> omega

theorem daysInMonth_dec (y : Int) : daysInMonth y 12 = 31 := rfl

theorem validDT_nextDay (t : PyDateTime) (h : ValidDT t) : ValidDT (nextDay t) := by
  obtain ⟨h1, h2, h3, h4⟩ := h
  unfold nextDay ValidDT
  split_ifs with hd hm
  · refine ⟨by simp <;> omega, by simp <;> omega, by simp <;> omega, by simp <;> omega⟩
  · refine ⟨by simp <;> omega, by simp <;> omega, by simp <;> omega, ?_⟩
    simpa using daysInMonth_pos t.year (t.month + 1)
  · refine ⟨by simp <;> omega, by simp <;> omega, by simp <;> omega, ?_⟩
    simpa using daysInMonth_pos (t.year + 1) 1

theorem validDT_prevDay (t : PyDateTime) (h : ValidDT t) : ValidDT (prevDay t) := by
  obtain ⟨h1, h2, h3, h4⟩ := h
  unfold prevDay ValidDT
  split_ifs with hd hm
  · refine ⟨by simp <;> omega, by simp <;> omega, by simp <;> omega, by simp <;> omega⟩
  · refine ⟨by simp <;> omega, by simp <;> omega, ?_, by simp <;> omega⟩
    simpa using daysInMonth_pos t.year (t.month - 1)
  · refine ⟨by simp <;> omega, by simp <;> omega, by simp <;> omega, ?_⟩
    simpa using (daysInMonth_dec (t.year - 1)).ge

theorem toOrd_addDays (t : PyDateTime) (n : Nat) (h : ValidDT t) :
    toOrd (addDays t n) = toOrd t + n ∧ ValidDT (addDays t n) := by
  induction n with
  | zero => exact ⟨by simp [addDays], h⟩
  | succ n ih =>
    refine ⟨?_, validDT_nextDay _ ih.2⟩
    show toOrd (nextDay (addDays t n)) = _
    rw [toOrd_nextDay _ ih.2, ih.1]
    omega

theorem toOrd_subDays (t : PyDateTime) (n : Nat) (h : ValidDT t) :
    toOrd (subDays t n) = toOrd t - n ∧ ValidDT (subDays t n) := by
  induction n with
  | zero => exact ⟨by simp [subDays], h⟩
  | succ n ih =>
    refine ⟨?_, validDT_prevDay _ ih.2⟩
    show toOrd (prevDay (subDays t n)) = _
    rw [toOrd_prevDay _ ih.2, ih.1]
    omega

theorem nextDay_time (t : PyDateTime) :
    (nextDay t).hour = t.hour ∧ (nextDay t).minute = t.minute ∧
    (nextDay t).second = t.second ∧ (nextDay t).microsecond = t.microsecond := by
  unfold nextDay
  split_ifs <;> exact ⟨rfl, rfl, rfl, rfl⟩

theorem prevDay_time (t : PyDateTime) :
    (prevDay t).hour = t.hour ∧ (prevDay t).minute = t.minute ∧
    (prevDay t).second = t.second ∧ (prevDay t).microsecond = t.microsecond := by
  unfold prevDay
  split_ifs <;> exact ⟨rfl, rfl, rfl, rfl⟩

theorem addDays_time (t : PyDateTime) (n : Nat) :
    (addDays t n).hour = t.hour ∧ (addDays t n).minute = t.minute ∧
    (addDays t n).second = t.second ∧ (addDays t n).microsecond = t.microsecond := by
  induction n with
  | zero => exact ⟨rfl, rfl, rfl, rfl⟩
  | succ n ih =>
    have hn := nextDay_time (addDays t n)
    exact ⟨hn.1.trans ih.1, hn.2.1.trans ih.2.1, hn.2.2.1.trans ih.2.2.1,
      hn.2.2.2.trans ih.2.2.2⟩

theorem subDays_time (t : PyDateTime) (n : Nat) :
    (subDays t n).hour = t.hour ∧ (subDays t n).minute = t.minute ∧
    (subDays t n).second = t.second ∧ (subDays t n).microsecond = t.microsecond := by
  induction n with
  | zero => exact ⟨rfl, rfl, rfl, rfl⟩
  | succ n ih =>
    have hn := prevDay_time (subDays t n)
    exact ⟨hn.1.trans ih.1, hn.2.1.trans ih.2.1, hn.2.2.1.trans ih.2.2.1,
      hn.2.2.2.trans ih.2.2.2⟩

theorem weekday_bounds (t : PyDateTime) : 0 ≤ weekday t ∧ weekday t < 7 := by
  unfold weekday
  constructor
  · exact Int.emod_nonneg _ (by norm_num)
  · exact Int.emod_lt_of_pos _ (by norm_num)

/-- Claim C7: the month period starting in December ends on January 1 of the
following year, any other month ends on the first of the next month of the
same year; the day period runs from midnight of the current day to midnight
of the next calendar day, and the week period from the Monday midnight of
the current ISO week to the following Monday midnight (seven days later),
all on the local wall clock. -/
theorem period_bounds_spec (t : PyDateTime) (h : ValidDT t) :
    (t.month = 12 →
      (period_bounds "mes" t).1 = ⟨t.year, 12, 1, 0, 0, 0, 0⟩ ∧
      (period_bounds "mes" t).2 = ⟨t.year + 1, 1, 1, 0, 0, 0, 0⟩) ∧
    (t.month ≠ 12 →
      (period_bounds "mes" t).1 = ⟨t.year, t.month, 1, 0, 0, 0, 0⟩ ∧
      (period_bounds "mes" t).2 = ⟨t.year, t.month + 1, 1, 0, 0, 0, 0⟩) ∧
    ((period_bounds "dia" t).1 = atMidnight t ∧
      toOrd (period_bounds "dia" t).2 = toOrd t + 1 ∧
      isMidnightTime (period_bounds "dia" t).2) ∧
    (weekday (period_bounds "semana" t).1 = 0 ∧
      weekday (period_bounds "semana" t).2 = 0 ∧
      toOrd (period_bounds "semana" t).1 = toOrd t - weekday t ∧
      toOrd (period_bounds "semana" t).2 = toOrd (period_bounds "semana" t).1 + 7 ∧
      isMidnightTime (period_bounds "semana" t).1 ∧
      isMidnightTime (period_bounds "semana" t).2) := by
  have hmes : period_bounds "mes" t =
      (if (t.month == 12 : Bool) then
        (⟨t.year, t.month, 1, 0, 0, 0, 0⟩,
         ⟨t.year + 1, 1, 1, 0, 0, 0, 0⟩)
       else
        (⟨t.year, t.month, 1, 0, 0, 0, 0⟩,
         ⟨t.year, t.month + 1, 1, 0, 0, 0, 0⟩)) := rfl
  have hvalidmid : ValidDT (atMidnight t) := h
  have hvalidsub : ValidDT (atMidnight (subDays t (weekday t).toNat)) :=
    (toOrd_subDays t (weekday t).toNat h).2
  have hordmid : toOrd (atMidnight t) = toOrd t := rfl
  have hwd := weekday_bounds t
  have hcast : ((weekday t).toNat : Int) = weekday t := Int.toNat_of_nonneg hwd.1
  refine ⟨?_, ?_, ⟨rfl, ?_, ?_⟩, ?_, ?_, ?_, ?_, ?_, ?_⟩
  · intro h12
    rw [hmes, if_pos (by rw [h12]; rfl)]
    constructor
    · show (⟨t.year, t.month, 1, 0, 0, 0, 0⟩ : PyDateTime) = _
      rw [h12]
    · rfl
  · intro h12
    rw [hmes, if_neg (by simpa using h12)]
    exact ⟨rfl, rfl⟩
  · show toOrd (addDays (atMidnight t) 1) = _
    rw [(toOrd_addDays (atMidnight t) 1 hvalidmid).1, hordmid]
    rfl
  · show isMidnightTime (addDays (atMidnight t) 1)
    have := addDays_time (atMidnight t) 1
    exact ⟨this.1, this.2.1, this.2.2.1, this.2.2.2⟩
  · show weekday (atMidnight (subDays t (weekday t).toNat)) = 0
    show (toOrd (atMidnight (subDays t (weekday t).toNat)) - 1) % 7 = 0
    have : toOrd (atMidnight (subDays t (weekday t).toNat))
        = toOrd (subDays t (weekday t).toNat) := rfl
    rw [this, (toOrd_subDays t (weekday t).toNat h).1, hcast]
    show (toOrd t - (toOrd t - 1) % 7 - 1) % 7 = 0
    omega
  · show weekday (addDays (atMidnight (subDays t (weekday t).toNat)) 7) = 0
    show (toOrd (addDays (atMidnight (subDays t (weekday t).toNat)) 7) - 1) % 7 = 0
    rw [(toOrd_addDays _ 7 hvalidsub).1]
    have hS : toOrd (atMidnight (subDays t (weekday t).toNat)) = toOrd t - weekday t := by
      show toOrd (subDays t (weekday t).toNat) = _
      rw [(toOrd_subDays t (weekday t).toNat h).1, hcast]
    rw [hS]
    show (toOrd t - (toOrd t - 1) % 7 + 7 - 1) % 7 = 0
    omega
  · show toOrd (atMidnight (subDays t (weekday t).toNat)) = toOrd t - weekday t
    show toOrd (subDays t (weekday t).toNat) = toOrd t - weekday t
    rw [(toOrd_subDays t (weekday t).toNat h).1, hcast]
  · show toOrd (addDays (atMidnight (subDays t (weekday t).toNat)) 7)
      = toOrd (atMidnight (subDays t (weekday t).toNat)) + 7
    rw [(toOrd_addDays _ 7 hvalidsub).1]
    norm_num
  · exact ⟨rfl, rfl, rfl, rfl⟩
  · show isMidnightTime (addDays (atMidnight (subDays t (weekday t).toNat)) 7)
    have ha := addDays_time (atMidnight (subDays t (weekday t).toNat)) 7
    exact ⟨ha.1, ha.2.1, ha.2.2.1, ha.2.2.2⟩


/-- Claim C7 witness: December 15, 2024 rolls its month period over to
January 1, 2025. -/
theorem period_bounds_spec_witness :
    (period_bounds "mes" ⟨2024, 12, 15, 13, 45, 10, 0⟩).1 = ⟨2024, 12, 1, 0, 0, 0, 0⟩ ∧
    (period_bounds "mes" ⟨2024, 12, 15, 13, 45, 10, 0⟩).2 = ⟨2025, 1, 1, 0, 0, 0, 0⟩ :=
  (period_bounds_spec ⟨2024, 12, 15, 13, 45, 10, 0⟩ (by decide)).1 rfl

/-- Claim C8 witness: user 7 with six hits and no prior badges gets GOLD
(and by the same theorem each other tier) on `stSixHits`. -/
theorem day_badge_thresholds_witness :
    ((award_daily_badges stSixHits 10 0 100 50 "2025-01-01").1.badges.any
      (badgeKey 10 7 "ORO_DIA" "2025-01-01") = true) ↔ (6 : Int) ≤ 6 :=
  day_badge_thresholds stSixHits 10 0 100 50 "2025-01-01" 7 6 (by decide)
    "ORO_DIA" 6 (by decide) (by decide)

theorem rankLE_trans (a b c : RankRow) (h1 : rankLE a b = true)
    (h2 : rankLE b c = true) : rankLE a c = true := by
  unfold rankLE at *
  simp only [Bool.or_eq_true, Bool.and_eq_true, decide_eq_true_eq,
    beq_iff_eq] at *
  omega

theorem rankLE_total (a b : RankRow) : (rankLE a b || rankLE b a) = true := by
  unfold rankLE
  simp only [Bool.or_eq_true, Bool.and_eq_true, decide_eq_true_eq, beq_iff_eq]
  omega

theorem mem_groupUserIds (ans : List AnswerRow) (uid : Int) :
    uid ∈ groupUserIds ans ↔ ∃ a ∈ ans, a.user_id = uid := by
  unfold groupUserIds
  suffices hgen : ∀ acc : List Int,
      uid ∈ ans.foldl (fun acc a =>
        if acc.contains a.user_id then acc else acc ++ [a.user_id]) acc ↔
      uid ∈ acc ∨ ∃ a ∈ ans, a.user_id = uid by
    simpa using hgen []
  induction ans with
  | nil => intro acc; simp
  | cons a rest ih =>
    intro acc
    rw [List.foldl_cons]
    by_cases hc : acc.contains a.user_id = true
    · rw [if_pos hc, ih]
      constructor
      · rintro (h | ⟨x, hx, rfl⟩)
        · exact Or.inl h
        · exact Or.inr ⟨x, List.mem_cons_of_mem _ hx, rfl⟩
      · rintro (h | ⟨x, hx, rfl⟩)
        · exact Or.inl h
        · rcases List.mem_cons.mp hx with rfl | hx1
          · exact Or.inl (by simpa [List.elem_iff] using hc)
          · exact Or.inr ⟨x, hx1, rfl⟩
    · rw [if_neg hc, ih]
      constructor
      · rintro (h | ⟨x, hx, rfl⟩)
        · rcases List.mem_append.mp h with h1 | h1
          · exact Or.inl h1
          · rw [List.mem_singleton] at h1
            exact Or.inr ⟨a, List.mem_cons_self _ _, h1.symm⟩
        · exact Or.inr ⟨x, List.mem_cons_of_mem _ hx, rfl⟩
      · rintro (h | ⟨x, hx, rfl⟩)
        · exact Or.inl (List.mem_append.mpr (Or.inl h))
        · rcases List.mem_cons.mp hx with rfl | hx1
          · exact Or.inl (List.mem_append.mpr (Or.inr (List.mem_singleton.mpr rfl)))
          · exact Or.inr ⟨x, hx1, rfl⟩

/-- Claim C6 counterexample: in `stRoster` the period has no events, user 7
is in the 30-day roster and has zero answers among the period's events, yet
the returned non-participants list is empty — contradicting "appears in the
non-participants list exactly when in the recent roster". -/
theorem fetch_rank_empty_period_cex :
    (⟨10, 7, "u", 1000⟩ : UserRow) ∈ recentRoster stRoster 10 1000 ∧
    (∀ a ∈ periodAnswers stRoster 10 0 100, a.user_id ≠ 7) ∧
    (⟨10, 7, "u", 1000⟩ : UserRow) ∉ (fetch_rank stRoster 10 0 100 1000).2.2 := by
  decide

/-- Claim C6 as amended: the ranked rows are sorted descending by hits with
ascending faults as tiebreak; a user with zero answers among the period's
events never appears in the ranked rows; and — provided at least one event
of the chat starts in the period, since otherwise all three returned lists
are empty — such a user appears in the non-participants list exactly when
they are in the 30-day recent roster. -/
theorem fetch_rank_order_and_participants (st : DB) (chat t0 t1 now : Int) :
    (fetch_rank st chat t0 t1 now).1.Pairwise (fun a b => rankLE a b = true) ∧
    (∀ uid : Int, (∀ a ∈ periodAnswers st chat t0 t1, a.user_id ≠ uid) →
      ∀ row ∈ (fetch_rank st chat t0 t1 now).1, row.user_id ≠ uid) ∧
    (periodEvents st chat t0 t1 ≠ [] →
      ∀ u : UserRow, (∀ a ∈ periodAnswers st chat t0 t1, a.user_id ≠ u.user_id) →
        (u ∈ (fetch_rank st chat t0 t1 now).2.2 ↔ u ∈ recentRoster st chat now)) := by
  by_cases he : (periodEvents st chat t0 t1).isEmpty
  · have hfr : fetch_rank st chat t0 t1 now = ([], [], []) := by
      unfold fetch_rank
      rw [if_pos he]
    rw [hfr]
    refine ⟨List.Pairwise.nil, fun uid _ row hrow => absurd hrow (by simp), ?_⟩
    intro hne
    exact absurd (List.isEmpty_iff.mp he) hne
  · have hfr : fetch_rank st chat t0 t1 now =
        (((groupUserIds (periodAnswers st chat t0 t1)).map fun uid =>
          { user_id := uid
            name := (st.users.find? (userKey chat uid)).map (·.name)
            aciertos := hitsOf (periodAnswers st chat t0 t1) uid
            fallos := faultsOf (periodAnswers st chat t0 t1) uid : RankRow }).mergeSort
            rankLE,
         recentRoster st chat now,
         (recentRoster st chat now).filter fun u =>
           !(groupUserIds (periodAnswers st chat t0 t1)).contains u.user_id) := by
      unfold fetch_rank
      rw [if_neg he]
    rw [hfr]
    refine ⟨List.sorted_mergeSort rankLE_trans rankLE_total _, ?_, ?_⟩
    · intro uid hno row hrow heq
      have hrow1 : row ∈ (groupUserIds (periodAnswers st chat t0 t1)).map fun uid =>
          { user_id := uid
            name := (st.users.find? (userKey chat uid)).map (·.name)
            aciertos := hitsOf (periodAnswers st chat t0 t1) uid
            fallos := faultsOf (periodAnswers st chat t0 t1) uid : RankRow } :=
        (List.mergeSort_perm _ rankLE).mem_iff.mp hrow
      obtain ⟨uid1, hu1, hu2⟩ := List.mem_map.mp hrow1
      have : uid1 = uid := by rw [← heq, ← hu2]
      subst this
      obtain ⟨a, ha, ha2⟩ := (mem_groupUserIds _ _).mp hu1
      exact hno a ha ha2
    · intro _ u hno
      constructor
      · intro hu
        exact (List.mem_filter.mp hu).1
      · intro hu
        refine List.mem_filter.mpr ⟨hu, ?_⟩
        simp only [Bool.not_eq_true']
        rw [← Bool.not_eq_true]
        intro hcontra
        obtain ⟨a, ha, ha2⟩ := (mem_groupUserIds _ _).mp (List.elem_iff.mp hcontra)
        exact hno a ha ha2

/-- Claim C6 amended-theorem witness: in `stRank` user 8 has no answers and
appears in the non-participants list exactly as a roster member. -/
theorem fetch_rank_order_and_participants_witness :
    (⟨10, 8, "b", 60⟩ : UserRow) ∈ (fetch_rank stRank 10 0 100 60).2.2 ↔
    (⟨10, 8, "b", 60⟩ : UserRow) ∈ recentRoster stRank 10 60 :=
  (fetch_rank_order_and_participants stRank 10 0 100 60).2.2 (by decide)
    ⟨10, 8, "b", 60⟩ (by decide)

end Gun4Fun
